import Mathlib

/-!
Shallow embedding of the UTF-7 decoding core of the charset crate
(src/lib.rs): the label recognizer is_utf7_label, the scanners
utf7_ascii_up_to and utf7_base64_up_to, the modified-Base64 pipeline
utf7_base64_decode (base64 decode into a 60-byte buffer followed by an
incremental UTF-16BE to UTF-8 transcode), the stateful scanner
decode_utf7, and the Charset facade with its three decode entry points.

Bytes are modelled as Nat (values below 0x100 in any real buffer; the
scanners follow the source's comparisons literally, so they are total on
Nat).  A Rust panic (a failed unwrap inside the base64 decoder, or an
out-of-bounds write into the fixed 60-byte buffer) is modelled as
Except.error Abort.panic; the undefined behaviour of
str::from_utf8_unchecked applied to a byte range that was not verified
to be ASCII is modelled as Except.error Abort.ub.
-/

namespace CharsetSpec

/-- Abnormal termination of the Rust code: `panic` models a Rust panic
(a failed `unwrap` or an out-of-bounds slice write), `ub` models the
undefined behaviour of an unchecked UTF-8 reinterpretation whose
precondition does not hold. -/
inductive Abort where
  | panic
  | ub
deriving DecidableEq

/-- Model of `Cow<'a, str>`: the decoder either returns the input buffer
reinterpreted in place (borrowed) or a freshly built string (owned). -/
inductive CowStr where
  | borrowed (s : String)
  | owned (s : String)
deriving DecidableEq

/-- The five whitespace bytes recognized by `is_utf7_label`
(tab, LF, FF, CR, space), from the two match arms in src/lib.rs. -/
def isLabelWs (b : Nat) : Bool :=
  b == 0x09 || b == 0x0A || b == 0x0C || b == 0x0D || b == 0x20

/-- The "inside"/"after" part of `is_utf7_label` (src/lib.rs lines
316-343): after the leading `u`/`U`, at least four bytes must remain,
the first two are compared case-insensitively via `| 0x20` against
`t` and `f`, the last two exactly against `-` and `7`, and every
remaining byte must be label whitespace. -/
def utf7LabelAfterU : List Nat → Bool
  | t0 :: t1 :: t2 :: t3 :: rest =>
      if (t0 ||| 0x20) == 0x74 && (t1 ||| 0x20) == 0x66
          && t2 == 0x2D && t3 == 0x37 then
        rest.all isLabelWs
      else false
  | _ => false

/-- Embedding of `is_utf7_label` (src/lib.rs lines 294-344): skip
leading whitespace, require `u` or `U`, then delegate to
`utf7LabelAfterU`; any other byte fails immediately. -/
def is_utf7_label : List Nat → Bool
  | [] => false
  | b :: rest =>
      if isLabelWs b then is_utf7_label rest
      else if b == 0x75 || b == 0x55 then utf7LabelAfterU rest
      else false

/-- Embedding of `utf7_ascii_up_to` (src/lib.rs lines 346-354): index of
the first byte that is `+` or at least 0x80, or the length if none. -/
def utf7_ascii_up_to : List Nat → Nat
  | [] => 0
  | b :: rest => if b = 0x2B ∨ 0x80 ≤ b then 0 else utf7_ascii_up_to rest + 1

/-- The standard Base64 alphabet test from `utf7_base64_up_to`
(src/lib.rs lines 356-367): `a-z`, `A-Z`, `0-9`, `+`, `/`. -/
def isBase64Byte (b : Nat) : Bool :=
  (0x61 ≤ b && b ≤ 0x7A) || (0x41 ≤ b && b ≤ 0x5A)
    || (0x30 ≤ b && b ≤ 0x39) || b == 0x2B || b == 0x2F

/-- Embedding of `utf7_base64_up_to` (src/lib.rs lines 356-367): index
of the first byte outside the Base64 alphabet, or the length. -/
def utf7_base64_up_to : List Nat → Nat
  | [] => 0
  | b :: rest => if isBase64Byte b then utf7_base64_up_to rest + 1 else 0

/-- Value of a byte in the standard Base64 alphabet (the base64 crate's
STANDARD alphabet), none for a byte outside it. -/
def b64Val (b : Nat) : Option Nat :=
  if 0x41 ≤ b ∧ b ≤ 0x5A then some (b - 0x41)
  else if 0x61 ≤ b ∧ b ≤ 0x7A then some (b - 0x61 + 26)
  else if 0x30 ≤ b ∧ b ≤ 0x39 then some (b - 0x30 + 52)
  else if b = 0x2B then some 62
  else if b = 0x2F then some 63
  else none

/-- Reassembles decoded bytes from a list of 6-bit Base64 symbol values,
following the base64 crate's unpadded decode: full groups of four
symbols yield three bytes; a final group of two or three symbols yields
one or two bytes and requires the discarded trailing bits to be zero; a
final group of one symbol is an invalid length.  `none` models a
DecodeError. -/
def b64Quantums : List Nat → Option (List Nat)
  | [] => some []
  | [_] => none
  | [a, b] =>
      let bits := a * 64 + b
      if bits % 16 = 0 then some [bits / 16] else none
  | [a, b, c] =>
      let bits := (a * 64 + b) * 64 + c
      if bits % 4 = 0 then some [bits / 1024, bits / 4 % 256] else none
  | a :: b :: c :: d :: rest =>
      let bits := ((a * 64 + b) * 64 + c) * 64 + d
      (b64Quantums rest).map
        (fun tl => bits / 65536 :: bits / 256 % 256 :: bits % 256 :: tl)

/-- Model of `base64::decode_config_slice(input, STANDARD_NO_PAD, buf)`
with the fixed 60-byte buffer of `utf7_base64_decode`: `none` when the
decode fails (invalid byte, invalid length, nonzero trailing bits) and
the source's `.unwrap()` panics, or when the decoded output does not
fit the 60-byte buffer and the write panics. -/
def decode_config_slice_60 (input : List Nat) : Option (List Nat) :=
  match input.mapM b64Val with
  | none => none
  | some vals =>
      match b64Quantums vals with
      | none => none
      | some bytes => if bytes.length ≤ 60 then some bytes else none

/-- The REPLACEMENT CHARACTER U+FFFD. -/
def replChar : Char := Char.ofNat 0xFFFD

/-- State of encoding_rs's incremental UTF-16BE decoder between chunks:
an odd trailing byte still waiting for its partner, and a lead
surrogate still waiting for its trail. -/
structure U16State where
  pendingByte : Option Nat
  pendingLead : Option Nat
deriving DecidableEq

/-- Pairs a byte list into big-endian 16-bit code units, returning the
units and the odd leftover byte, if any. -/
def toUnits : List Nat → List Nat × Option Nat
  | [] => ([], none)
  | [b] => ([], some b)
  | b1 :: b2 :: rest =>
      let p := toUnits rest
      ((b1 * 256 + b2) :: p.1, p.2)

/-- Processes one UTF-16 code unit with no pending lead surrogate:
a non-surrogate becomes a character, a lead surrogate becomes pending,
a lone trail surrogate is replaced by U+FFFD with the error flag set. -/
def u16Fresh (u : Nat) : List Char × Option Nat × Bool :=
  if u < 0xD800 ∨ 0xE000 ≤ u then ([Char.ofNat u], none, false)
  else if u < 0xDC00 then ([], some u, false)
  else ([replChar], none, true)

/-- Processes a list of UTF-16 code units given an optional pending lead
surrogate, with replacement of malformed sequences: returns the decoded
characters, the pending lead left at the end, and the error flag. -/
def u16Units (lead : Option Nat) : List Nat → List Char × Option Nat × Bool
  | [] => ([], lead, false)
  | u :: rest =>
      match lead with
      | some l =>
          if 0xDC00 ≤ u ∧ u < 0xE000 then
            let r := u16Units none rest
            (Char.ofNat (0x10000 + (l - 0xD800) * 0x400 + (u - 0xDC00)) :: r.1,
              r.2.1, r.2.2)
          else
            -- the lead surrogate is unpaired: replace it, then the
            -- offending unit is processed afresh
            let f := u16Fresh u
            let r := u16Units f.2.1 rest
            (replChar :: (f.1 ++ r.1), r.2.1, true)
      | none =>
          let f := u16Fresh u
          let r := u16Units f.2.1 rest
          (f.1 ++ r.1, r.2.1, f.2.2 || r.2.2)

/-- Model of one `decoder.decode_to_string` pass of encoding_rs's
UTF-16BE decoder over a chunk of raw bytes (the OutputFull arm of the
source only grows the output string, so the output is modelled as
unbounded): returns the decoded characters, the decoder state after the
chunk, and the error flag.  When `last` is set, a pending odd byte or a
pending lead surrogate is flushed as U+FFFD with the error flag set. -/
def u16Decode (st : U16State) (bs : List Nat) (last : Bool) :
    List Char × U16State × Bool :=
  let full := match st.pendingByte with
    | some b => b :: bs
    | none => bs
  let up := toUnits full
  let r := u16Units st.pendingLead up.1
  if last then
    let tail : List Char × Bool :=
      match r.2.1, up.2 with
      | some _, some _ => ([replChar, replChar], true)
      | some _, none => ([replChar], true)
      | none, some _ => ([replChar], true)
      | none, none => ([], false)
    (r.1 ++ tail.1, ⟨none, none⟩, r.2.2 || tail.2)
  else
    (r.1, ⟨up.2, r.2.1⟩, r.2.2)

/-- The loop of `utf7_base64_decode` (src/lib.rs lines 380-403), with a
fuel parameter for termination (the source loop drops 80 bytes per
iteration, so `bytes.length + 1` units always suffice; running out of
fuel is unreachable and conservatively modelled as a panic).  Note that
the source passes the WHOLE remaining `tail` to
`base64::decode_config_slice`, not just the first 80 bytes. -/
def utf7_base64_loop :
    Nat → List Nat → U16State → String → Bool → Except Abort (String × Bool)
  | 0, _, _, _, _ => .error .panic
  | fuel + 1, tail, st, out, had =>
      match decode_config_slice_60 tail with
      | none => .error .panic
      | some buf =>
          let r := u16Decode st buf (tail.length ≤ 80)
          let out2 := out ++ String.mk r.1
          let had2 := had || r.2.2
          if tail.length ≤ 80 then .ok (out2, had2)
          else utf7_base64_loop fuel (tail.drop 80) r.2.1 out2 had2

/-- Embedding of `utf7_base64_decode` (src/lib.rs lines 369-404): a
fresh UTF-16BE decoder, a 60-byte intermediate buffer, and the chunk
loop; appends to `string` and returns it with the error flag.  A panic
of the base64 unwrap or of the buffer write surfaces as
`.error .panic`. -/
def utf7_base64_decode (bytes : List Nat) (string : String) :
    Except Abort (String × Bool) :=
  utf7_base64_loop (bytes.length + 1) bytes ⟨none, none⟩ string false

/-- Model of `std::str::from_utf8_unchecked` as used by `decode_utf7`:
the source only ever applies it to ranges whose bytes were verified to
be below 0x80 by `utf7_ascii_up_to`, and its contract is undefined
behaviour otherwise; the model returns the ASCII string when the
precondition holds and `.error .ub` when it does not. -/
def from_utf8_unchecked (bs : List Nat) : Except Abort String :=
  if bs.all (fun b => b < 0x80) then
    .ok (String.mk (bs.map (fun b => Char.ofNat b)))
  else .error .ub

/-- The trailing step of each `decode_utf7` loop iteration (src/lib.rs
lines 448-453): scan an ASCII run, append it via the unchecked
reinterpretation, and either return or continue with the recursion
passed in as `recur`. -/
def asciiThenStep (recur : List Nat → String → Bool → Except Abort (CowStr × Bool))
    (t : List Nat) (o : String) (h : Bool) : Except Abort (CowStr × Bool) :=
  let upTo := utf7_ascii_up_to t
  match from_utf8_unchecked (t.take upTo) with
  | .error a => .error a
  | .ok s =>
      if upTo = t.length then .ok (.owned (o ++ s), h)
      else recur (t.drop upTo) (o ++ s) h

/-- The loop of `decode_utf7` (src/lib.rs lines 418-454), with a fuel
parameter for termination (every iteration consumes at least the one
byte `first`, so `bytes.length + 1` units always suffice; running out
of fuel is unreachable and conservatively modelled as a panic; the loop
is never entered with an empty tail and that case returns the
accumulator).  Note that the source hands the WHOLE remaining `tail`
to `utf7_base64_decode`, not just its Base64 prefix of length
`utf7_base64_up_to tail`. -/
def decodeUtf7Loop : Nat → List Nat → String → Bool → Except Abort (CowStr × Bool)
  | 0, _, _, _ => .error .panic
  | _ + 1, [], out, had => .ok (.owned out, had)
  | fuel + 1, first :: tail, out, had =>
      if first = 0x2B then
        let upTo := utf7_base64_up_to tail
        match utf7_base64_decode tail out with
        | .error a => .error a
        | .ok p =>
            let had2 := had || p.2
            if upTo = tail.length then .ok (.owned p.1, had2)
            else if upTo = 0 then
              if tail.headD 0 = 0x2D then
                -- a plus-minus pair denotes a literal plus sign
                asciiThenStep (fun t o h => decodeUtf7Loop fuel t o h)
                  (tail.drop 1) (p.1.push (Char.ofNat 0x2B)) had2
              else
                -- plus sign neither started a base64 run nor was
                -- followed by a minus; the byte is not consumed
                asciiThenStep (fun t o h => decodeUtf7Loop fuel t o h)
                  tail (p.1.push replChar) true
            else
              asciiThenStep (fun t o h => decodeUtf7Loop fuel t o h)
                (tail.drop upTo) p.1 had2
      else
        asciiThenStep (fun t o h => decodeUtf7Loop fuel t o h)
          tail (out.push replChar) true

/-- Embedding of `decode_utf7` (src/lib.rs lines 406-455): if the whole
input is an ASCII run it is returned borrowed with no errors; otherwise
the verified prefix seeds an owned accumulator and the loop runs on the
rest.  (The source pre-sizes the accumulator to `bytes.len() * 3`; Nat
arithmetic cannot overflow, so that usize-overflow precondition has no
counterpart here.) -/
def decode_utf7 (bytes : List Nat) : Except Abort (CowStr × Bool) :=
  let upTo := utf7_ascii_up_to bytes
  if upTo = bytes.length then
    match from_utf8_unchecked bytes with
    | .error a => .error a
    | .ok s => .ok (.borrowed s, false)
  else
    match from_utf8_unchecked (bytes.take upTo) with
    | .error a => .error a
    | .ok s => decodeUtf7Loop (bytes.length + 1) (bytes.drop upTo) s false

/-- Handle for an encoding of the external codec collaborator
(encoding_rs).  Only the identities the core inspects are distinguished:
the three BOM encodings and the unified GBK/gb18030 pair; everything
else is carried by name. -/
inductive ExtEncoding where
  | utf8
  | utf16le
  | utf16be
  | gbk
  | gb18030
  | other (name : String)
deriving DecidableEq

/-- Embedding of the private `VariantCharset` enum (src/lib.rs lines
457-461). -/
inductive VariantCharset where
  | Utf7
  | Encoding (e : ExtEncoding)
deriving DecidableEq

/-- Embedding of `Charset` (src/lib.rs lines 90-93). -/
structure Charset where
  variant : VariantCharset
deriving DecidableEq

/-- The `UTF_7` constant (src/lib.rs lines 64-67). -/
def UTF_7 : Charset := ⟨VariantCharset.Utf7⟩

/-- Embedding of `Charset::for_encoding` (src/lib.rs lines 158-164):
GBK is unified with gb18030. -/
def Charset.for_encoding (e : ExtEncoding) : Charset :=
  ⟨VariantCharset.Encoding (if e = ExtEncoding.gbk then ExtEncoding.gb18030 else e)⟩

/-- Modelled from the spec: `encoding_rs::Encoding::for_bom`, the
BomSniffer collaborator (not part of src/), per spec section 4.2:
bytes EF BB BF give UTF-8 with consumed length 3, FF FE gives UTF-16LE
with length 2, FE FF gives UTF-16BE with length 2, anything else no
match. -/
def Encoding.for_bom : List Nat → Option (ExtEncoding × Nat)
  | 0xEF :: 0xBB :: 0xBF :: _ => some (.utf8, 3)
  | 0xFF :: 0xFE :: _ => some (.utf16le, 2)
  | 0xFE :: 0xFF :: _ => some (.utf16be, 2)
  | _ => none

/-- Embedding of `Charset::for_bom` (src/lib.rs lines 177-184). -/
def Charset.for_bom (buffer : List Nat) : Option (Charset × Nat) :=
  match Encoding.for_bom buffer with
  | some (e, l) => some (Charset.for_encoding e, l)
  | none => none

/-- The decode surface of the external codec collaborator
(encoding_rs), abstract: one function per entry point the facade
forwards to. -/
structure ExtCodec where
  decodeWithoutBom : ExtEncoding → List Nat → CowStr × Bool
  decodeWithBomRemoval : ExtEncoding → List Nat → CowStr × Bool

/-- Embedding of `Charset::decode_without_bom_handling` (src/lib.rs
lines 286-291), parameterized by the external codec. -/
def Charset.decode_without_bom_handling (ext : ExtCodec) (self : Charset)
    (bytes : List Nat) : Except Abort (CowStr × Bool) :=
  match self.variant with
  | .Encoding e => .ok (ext.decodeWithoutBom e bytes)
  | .Utf7 => decode_utf7 bytes

/-- Embedding of `Charset::decode_with_bom_removal` (src/lib.rs lines
258-263), parameterized by the external codec. -/
def Charset.decode_with_bom_removal (ext : ExtCodec) (self : Charset)
    (bytes : List Nat) : Except Abort (CowStr × Bool) :=
  match self.variant with
  | .Encoding e => .ok (ext.decodeWithBomRemoval e bytes)
  | .Utf7 => decode_utf7 bytes

/-- Embedding of `Charset::decode` (src/lib.rs lines 228-235): BOM
sniffing may override the charset, which then decodes the buffer with
the BOM stripped; the charset actually used is returned. -/
def Charset.decode (ext : ExtCodec) (self : Charset) (bytes : List Nat) :
    Except Abort (CowStr × Charset × Bool) :=
  let p := match Charset.for_bom bytes with
    | some (charset, boml) => (charset, bytes.drop boml)
    | none => (self, bytes)
  match Charset.decode_without_bom_handling ext p.1 p.2 with
  | .error a => .error a
  | .ok r => .ok (r.1, p.1, r.2)

/-- A concrete external codec used by witnesses and counterexamples:
every decode returns the fixed owned string "EXT" with no errors,
making it observable which decoder the facade invoked. -/
def extZero : ExtCodec :=
  ⟨fun _ _ => (.owned "EXT", false), fun _ _ => (.owned "EXT", false)⟩

instance {ε α : Type} [DecidableEq ε] [DecidableEq α] : DecidableEq (Except ε α) :=
  fun a b =>
    match a, b with
    | .ok x, .ok y =>
        if h : x = y then isTrue (by rw [h]) else isFalse (by simp [h])
    | .error x, .error y =>
        if h : x = y then isTrue (by rw [h]) else isFalse (by simp [h])
    | .ok _, .error _ => isFalse (by simp)
    | .error _, .ok _ => isFalse (by simp)

/-- Detects the undefined-behaviour outcome: false exactly on
`.error .ub`. -/
def noUb {α : Type} : Except Abort α → Bool
  | .error .ub => false
  | _ => true

theorem utf7_ascii_up_to_of_ascii (bs : List Nat)
    (h : ∀ b ∈ bs, b < 0x80 ∧ b ≠ 0x2B) : utf7_ascii_up_to bs = bs.length := by
  induction bs with
  | nil => rfl
  | cons b rest ih =>
      have hb := h b (List.mem_cons_self b rest)
      have hcond : ¬(b = 0x2B ∨ 0x80 ≤ b) := by
        rintro (h1 | h1)
        · exact hb.2 h1
        · omega
      simp only [utf7_ascii_up_to, if_neg hcond, List.length_cons]
      rw [ih (fun x hx => h x (List.mem_cons_of_mem b hx))]

theorem take_ascii_up_to_lt (bs : List Nat) :
    ∀ b ∈ bs.take (utf7_ascii_up_to bs), b < 0x80 := by
  induction bs with
  | nil => intro b hb; simp at hb
  | cons x rest ih =>
      by_cases hcond : x = 0x2B ∨ 0x80 ≤ x
      · simp [utf7_ascii_up_to, if_pos hcond]
      · simp only [utf7_ascii_up_to, if_neg hcond, List.take_succ_cons]
        intro b hb
        rcases List.mem_cons.mp hb with h1 | h1
        · subst h1; omega
        · exact ih b h1

theorem from_utf8_unchecked_ok (bs : List Nat) (h : ∀ b ∈ bs, b < 0x80) :
    from_utf8_unchecked bs = .ok (String.mk (bs.map (fun b => Char.ofNat b))) := by
  have hall : bs.all (fun b => b < 0x80) = true := by
    rw [List.all_eq_true]
    intro b hb
    exact decide_eq_true (h b hb)
  simp [from_utf8_unchecked, hall]

theorem from_utf8_unchecked_take_ascii (t : List Nat) :
    from_utf8_unchecked (t.take (utf7_ascii_up_to t)) =
      .ok (String.mk ((t.take (utf7_ascii_up_to t)).map (fun b => Char.ofNat b))) :=
  from_utf8_unchecked_ok _ (take_ascii_up_to_lt t)

theorem utf7_base64_loop_noUb (fuel : Nat) :
    ∀ tail st out had, noUb (utf7_base64_loop fuel tail st out had) = true := by
  induction fuel with
  | zero => intro tail st out had; rfl
  | succ n ih =>
      intro tail st out had
      simp only [utf7_base64_loop]
      cases decode_config_slice_60 tail with
      | none => rfl
      | some buf =>
          by_cases hl : tail.length ≤ 80
          · simp only [if_pos hl]; rfl
          · simp only [if_neg hl]; exact ih _ _ _ _

theorem utf7_base64_decode_noUb (bytes : List Nat) (string : String) :
    noUb (utf7_base64_decode bytes string) = true :=
  utf7_base64_loop_noUb _ bytes ⟨none, none⟩ string false

theorem asciiThenStep_noUb
    (recur : List Nat → String → Bool → Except Abort (CowStr × Bool))
    (hrec : ∀ t o h, noUb (recur t o h) = true)
    (t : List Nat) (o : String) (h : Bool) :
    noUb (asciiThenStep recur t o h) = true := by
  simp only [asciiThenStep, from_utf8_unchecked_take_ascii]
  by_cases he : utf7_ascii_up_to t = t.length
  · simp only [if_pos he]; rfl
  · simp only [if_neg he]; exact hrec _ _ _

theorem decodeUtf7Loop_noUb (fuel : Nat) :
    ∀ tail out had, noUb (decodeUtf7Loop fuel tail out had) = true := by
  induction fuel with
  | zero => intro tail out had; rfl
  | succ n ih =>
      intro tail out had
      cases tail with
      | nil => rfl
      | cons first rest =>
          simp only [decodeUtf7Loop]
          by_cases hf : first = 0x2B
          · simp only [if_pos hf]
            cases hb : utf7_base64_decode rest out with
            | error a =>
                have hnu := utf7_base64_decode_noUb rest out
                rw [hb] at hnu
                cases a with
                | panic => rfl
                | ub => exact absurd hnu (by simp [noUb])
            | ok p =>
                by_cases h1 : utf7_base64_up_to rest = rest.length
                · simp only [if_pos h1]; rfl
                · simp only [if_neg h1]
                  by_cases h2 : utf7_base64_up_to rest = 0
                  · simp only [if_pos h2]
                    by_cases h3 : rest.headD 0 = 0x2D
                    · simp only [if_pos h3]
                      exact asciiThenStep_noUb _ (fun t o h => ih t o h) _ _ _
                    · simp only [if_neg h3]
                      exact asciiThenStep_noUb _ (fun t o h => ih t o h) _ _ _
                  · simp only [if_neg h2]
                    exact asciiThenStep_noUb _ (fun t o h => ih t o h) _ _ _
          · simp only [if_neg hf]
            exact asciiThenStep_noUb _ (fun t o h => ih t o h) _ _ _

theorem nat_le_lor_left (a b : Nat) : a ≤ a ||| b :=
  Nat.le_of_testBit (fun i h => by rw [Nat.testBit_or, h, Bool.true_or])

theorem lor32_eq_116 (x : Nat) (h : x ||| 0x20 = 0x74) : x = 0x74 ∨ x = 0x54 := by
  have hle : x ≤ 0x74 := by
    have h2 := nat_le_lor_left x 0x20
    omega
  have key : ∀ y : Nat, y < 0x75 → y ||| 0x20 = 0x74 → y = 0x74 ∨ y = 0x54 := by
    decide
  exact key x (by omega) h

theorem lor32_eq_102 (x : Nat) (h : x ||| 0x20 = 0x66) : x = 0x66 ∨ x = 0x46 := by
  have hle : x ≤ 0x66 := by
    have h2 := nat_le_lor_left x 0x20
    omega
  have key : ∀ y : Nat, y < 0x67 → y ||| 0x20 = 0x66 → y = 0x66 ∨ y = 0x46 := by
    decide
  exact key x (by omega) h

theorem utf7LabelAfterU_short (l : List Nat) (h : l.length < 4) :
    utf7LabelAfterU l = false := by
  match l with
  | [] => rfl
  | [_] => rfl
  | [_, _] => rfl
  | [_, _, _] => rfl
  | _ :: _ :: _ :: _ :: _ =>
      simp only [List.length_cons] at h
      omega

theorem is_utf7_label_iff (label : List Nat) :
    is_utf7_label label = true ↔
      ∃ pre u t f post,
        (∀ b ∈ pre, isLabelWs b = true) ∧
        (u = 0x75 ∨ u = 0x55) ∧ (t = 0x74 ∨ t = 0x54) ∧ (f = 0x66 ∨ f = 0x46) ∧
        (∀ b ∈ post, isLabelWs b = true) ∧
        label = pre ++ u :: t :: f :: 0x2D :: 0x37 :: post := by
  induction label with
  | nil =>
      constructor
      · intro h; exact absurd h (by decide)
      · rintro ⟨pre, u, t, f, post, -, -, -, -, -, heq⟩
        exact absurd heq (by simp)
  | cons b rest ih =>
      by_cases hw : isLabelWs b = true
      · rw [show is_utf7_label (b :: rest) = is_utf7_label rest from by
          simp [is_utf7_label, hw]]
        rw [ih]
        constructor
        · rintro ⟨pre, u, t, f, post, hpre, hu, ht, hf, hpost, heq⟩
          refine ⟨b :: pre, u, t, f, post, ?_, hu, ht, hf, hpost, by rw [heq]; rfl⟩
          intro x hx
          rcases List.mem_cons.mp hx with h1 | h1
          · subst h1; exact hw
          · exact hpre x h1
        · rintro ⟨pre, u, t, f, post, hpre, hu, ht, hf, hpost, heq⟩
          cases pre with
          | nil =>
              simp only [List.nil_append, List.cons.injEq] at heq
              obtain ⟨rfl, -⟩ := heq
              rcases hu with rfl | rfl <;> simp [isLabelWs] at hw
          | cons q pre' =>
              simp only [List.cons_append, List.cons.injEq] at heq
              obtain ⟨rfl, hrest⟩ := heq
              exact ⟨pre', u, t, f, post,
                fun x hx => hpre x (List.mem_cons_of_mem _ hx),
                hu, ht, hf, hpost, hrest⟩
      · by_cases hu : (b == 0x75 || b == 0x55) = true
        · rw [show is_utf7_label (b :: rest) = utf7LabelAfterU rest from by
            simp [is_utf7_label, hw, hu]]
          have hb : b = 0x75 ∨ b = 0x55 := by simpa using hu
          constructor
          · intro h
            rcases rest with _ | ⟨t0, rest1⟩
            · exact absurd h (by decide)
            rcases rest1 with _ | ⟨t1, rest1⟩
            · rw [utf7LabelAfterU_short _ (by simp)] at h
              exact absurd h (by decide)
            rcases rest1 with _ | ⟨t2, rest1⟩
            · rw [utf7LabelAfterU_short _ (by simp)] at h
              exact absurd h (by decide)
            rcases rest1 with _ | ⟨t3, rest2⟩
            · rw [utf7LabelAfterU_short _ (by simp)] at h
              exact absurd h (by decide)
            simp only [utf7LabelAfterU] at h
            by_cases hc : ((t0 ||| 0x20) == 0x74 && (t1 ||| 0x20) == 0x66
                && t2 == 0x2D && t3 == 0x37) = true
            · have hall : rest2.all isLabelWs = true := by
                rwa [if_pos hc] at h
              simp only [Bool.and_eq_true, beq_iff_eq] at hc
              obtain ⟨⟨⟨h0, h1⟩, h2⟩, h3⟩ := hc
              subst h2; subst h3
              exact ⟨[], b, t0, t1, rest2, by simp, hb,
                lor32_eq_116 t0 h0, lor32_eq_102 t1 h1,
                List.all_eq_true.mp hall, rfl⟩
            · rw [if_neg hc] at h
              exact absurd h (by decide)
          · rintro ⟨pre, u, t, f, post, hpre, hu2, ht, hf, hpost, heq⟩
            cases pre with
            | cons q pre' =>
                simp only [List.cons_append, List.cons.injEq] at heq
                obtain ⟨rfl, -⟩ := heq
                exact absurd (hpre b (List.mem_cons_self b pre')) hw
            | nil =>
                simp only [List.nil_append, List.cons.injEq] at heq
                obtain ⟨rfl, rfl⟩ := heq
                have hcond : ((t ||| 0x20) == 0x74 && (f ||| 0x20) == 0x66
                    && (0x2D : Nat) == 0x2D && (0x37 : Nat) == 0x37) = true := by
                  rcases ht with rfl | rfl <;> rcases hf with rfl | rfl <;> decide
                simp only [utf7LabelAfterU]
                rw [if_pos hcond]
                exact List.all_eq_true.mpr hpost
        · rw [show is_utf7_label (b :: rest) = false from by
            simp [is_utf7_label, hw, hu]]
          constructor
          · intro h; exact absurd h (by decide)
          · rintro ⟨pre, u, t, f, post, hpre, hu2, ht, hf, hpost, heq⟩
            cases pre with
            | cons q pre' =>
                simp only [List.cons_append, List.cons.injEq] at heq
                obtain ⟨rfl, -⟩ := heq
                exact absurd (hpre b (List.mem_cons_self b pre')) hw
            | nil =>
                simp only [List.nil_append, List.cons.injEq] at heq
                obtain ⟨rfl, -⟩ := heq
                rcases hu2 with rfl | rfl <;> simp at hu

/-- C1: the claim states that UTF-7 decoding never panics on account of
input content.  The code refutes it: on the two-byte input "+-" (and
likewise on "+A") the whole tail after the plus sign, including the
non-Base64 byte, reaches base64::decode_config_slice and its unwrap
panics, so decode_utf7 aborts on well-formed UTF-7 input. -/
theorem decode_utf7_panics_on_plus_minus :
    decode_utf7 [0x2B, 0x2D] = .error .panic ∧
      decode_utf7 [0x2B, 0x41] = .error .panic := by
  constructor <;> decide

/-- C2: the claim states that "+AOk-" decodes to the single character
U+00E9 with no errors.  The code refutes it: the whole tail "AOk-"
(including the minus) is passed to the base64 decoder, whose unwrap
panics on the invalid byte 0x2D. -/
theorem decode_utf7_panics_on_plus_AOk_minus :
    decode_utf7 [0x2B, 0x41, 0x4F, 0x6B, 0x2D] = .error .panic := by
  decide

/-- C3: the claim states that "+-" decodes to the single character "+"
with no errors.  The code refutes it: utf7_base64_decode is invoked on
the tail "-" before the plus-minus branch is reached, and the base64
unwrap panics on the invalid byte 0x2D, so no value is returned at
all. -/
theorem decode_utf7_plus_minus_no_literal_plus :
    decode_utf7 [0x2B, 0x2D] = .error .panic ∧
      Except.error Abort.panic ≠
        Except.ok (CowStr.owned "+", false) := by
  constructor
  · decide
  · intro h; cases h

/-- C4: the claim states that a "+" followed by zero Base64 bytes and a
non-"-" terminator (or end of input) yields one U+FFFD with
had_errors = true and leaves the terminator unconsumed.  The code
refutes both halves: a lone "+" returns empty text with
had_errors = false (the early return when the Base64 run spans the
whole tail fires before the error branch), and "+!" panics inside the
base64 unwrap instead of appending U+FFFD. -/
theorem decode_utf7_lone_plus_and_plus_bang :
    decode_utf7 [0x2B] = .ok (.owned "", false) ∧
      decode_utf7 [0x2B, 0x21] = .error .panic := by
  constructor <;> decide

/-- C5: the claim states that utf7_base64_decode handles pure Base64
runs of any length, including lengths above 80, in 80-character chunks.
The code refutes it: the whole remaining run is passed to
base64::decode_config_slice with the 60-byte buffer, so a run of
84 "A" bytes panics (63 decoded bytes do not fit), and a run of
5 "A" bytes (length 1 mod 4) panics in the unwrap on InvalidLength. -/
theorem utf7_base64_decode_panics_on_long_run :
    utf7_base64_decode (List.replicate 84 0x41) "" = .error .panic ∧
      utf7_base64_decode [0x41, 0x41, 0x41, 0x41, 0x41] "" = .error .panic := by
  constructor <;> decide

/-- C6: for every input containing only bytes below 0x80 and no "+",
decode_utf7 takes the fast path and returns the input reinterpreted as
text as a borrowed value with had_errors = false. -/
theorem decode_utf7_ascii_fast_path (bytes : List Nat)
    (h : ∀ b ∈ bytes, b < 0x80 ∧ b ≠ 0x2B) :
    decode_utf7 bytes =
      .ok (.borrowed (String.mk (bytes.map (fun b => Char.ofNat b))), false) := by
  have hlen := utf7_ascii_up_to_of_ascii bytes h
  have hok := from_utf8_unchecked_ok bytes (fun b hb => (h b hb).1)
  simp [decode_utf7, hlen, hok]

/-- Witness for C6 at the concrete input "AB". -/
theorem decode_utf7_ascii_fast_path_witness :
    (∀ b ∈ ([0x41, 0x42] : List Nat), b < 0x80 ∧ b ≠ 0x2B) ∧
      decode_utf7 [0x41, 0x42] =
        .ok (.borrowed (String.mk ([0x41, 0x42].map (fun b => Char.ofNat b))),
          false) :=
  ⟨by decide, decode_utf7_ascii_fast_path [0x41, 0x42] (by decide)⟩

/-- C7: the claim states that after a shifted run of non-zero Base64
length followed by "-", the "-" is left in place, re-examined by the
next ASCII scan and copied to the output.  The code refutes it: the
"-" is part of the tail handed to the base64 decoder, whose unwrap
panics on it ("+AEA-" should decode to "@-"). -/
theorem decode_utf7_panics_on_closed_run :
    decode_utf7 [0x2B, 0x41, 0x45, 0x41, 0x2D] = .error .panic := by
  decide

/-- C9 (amended): for the Utf7 variant, decode_with_bom_removal and
decode_without_bom_handling route every input to decode_utf7 for any
external codec; Charset.decode routes to decode_utf7 only when BOM
sniffing finds no match, because a detected BOM overrides the charset
before dispatch. -/
theorem utf7_decode_routing (ext : ExtCodec) (bytes : List Nat) :
    Charset.decode_with_bom_removal ext UTF_7 bytes = decode_utf7 bytes ∧
      Charset.decode_without_bom_handling ext UTF_7 bytes = decode_utf7 bytes ∧
      (Charset.for_bom bytes = none →
        Charset.decode ext UTF_7 bytes =
          match decode_utf7 bytes with
          | .error a => .error a
          | .ok r => .ok (r.1, UTF_7, r.2)) := by
  refine ⟨rfl, rfl, fun hbom => ?_⟩
  simp only [Charset.decode, hbom]
  rfl

/-- Witness for C9 (amended) at the codec extZero and the BOM-free
input "A". -/
theorem utf7_decode_routing_witness :
    Charset.decode_with_bom_removal extZero UTF_7 [0x41] = decode_utf7 [0x41] ∧
      Charset.decode_without_bom_handling extZero UTF_7 [0x41] =
        decode_utf7 [0x41] ∧
      Charset.decode extZero UTF_7 [0x41] =
        (match decode_utf7 [0x41] with
          | .error a => .error a
          | .ok r => .ok (r.1, UTF_7, r.2)) :=
  ⟨(utf7_decode_routing extZero [0x41]).1,
    (utf7_decode_routing extZero [0x41]).2.1,
    (utf7_decode_routing extZero [0x41]).2.2 rfl⟩

/-- C9 counterexample: the claim as stated says every decode entry
point routes every buffer, including BOM-prefixed ones, to the UTF-7
decoder.  On the pure UTF-8 BOM, Charset.decode on UTF_7 returns the
external codec's output and reports the UTF-8 charset, not UTF_7, and
not what the UTF-7 decoder produces on those bytes. -/
theorem utf7_decode_bom_overrides :
    Charset.decode extZero UTF_7 [0xEF, 0xBB, 0xBF] =
        .ok (CowStr.owned "EXT", Charset.for_encoding ExtEncoding.utf8, false) ∧
      Charset.for_encoding ExtEncoding.utf8 ≠ UTF_7 ∧
      decode_utf7 [0xEF, 0xBB, 0xBF] =
        .ok (CowStr.owned (String.mk [replChar, replChar, replChar]), true) := by
  refine ⟨by decide, ?_, by decide⟩
  intro h
  cases h

/-- C10: the text produced by UTF-7 decoding is always valid UTF-8 (the
model builds it from Unicode scalar values), and in particular no
execution of decode_utf7 ever reaches the undefined behaviour of an
unchecked byte-to-text reinterpretation applied to a range containing a
byte of 0x80 or above: every such range was verified by the preceding
utf7_ascii_up_to scan. -/
theorem decode_utf7_never_ub (bytes : List Nat) :
    noUb (decode_utf7 bytes) = true := by
  simp only [decode_utf7]
  by_cases hlen : utf7_ascii_up_to bytes = bytes.length
  · have : bytes.take (utf7_ascii_up_to bytes) = bytes := by
      rw [hlen, List.take_length]
    have hok := from_utf8_unchecked_take_ascii bytes
    rw [this] at hok
    simp only [if_pos hlen, hok]
    rfl
  · simp only [if_neg hlen, from_utf8_unchecked_take_ascii bytes]
    exact decodeUtf7Loop_noUb _ _ _ _

/-- C8: is_utf7_label succeeds exactly on labels that are
whitespace-trimmed `u`/`U` `t`/`T` `f`/`F` `-` `7` (the first three
bytes case-insensitive, the last two exact, whitespace drawn from
tab/LF/FF/CR/space), and in particular "  uTf-7\t " is recognized while
"u", "ut", "utf-" and "u tf-7" are not. -/
theorem is_utf7_label_characterization :
    (∀ label, is_utf7_label label = true ↔
      ∃ pre u t f post,
        (∀ b ∈ pre, isLabelWs b = true) ∧
        (u = 0x75 ∨ u = 0x55) ∧ (t = 0x74 ∨ t = 0x54) ∧ (f = 0x66 ∨ f = 0x46) ∧
        (∀ b ∈ post, isLabelWs b = true) ∧
        label = pre ++ u :: t :: f :: 0x2D :: 0x37 :: post) ∧
      is_utf7_label [0x20, 0x20, 0x75, 0x54, 0x66, 0x2D, 0x37, 0x09, 0x20] = true ∧
      is_utf7_label [0x75] = false ∧
      is_utf7_label [0x75, 0x74] = false ∧
      is_utf7_label [0x75, 0x74, 0x66, 0x2D] = false ∧
      is_utf7_label [0x75, 0x20, 0x74, 0x66, 0x2D, 0x37] = false :=
  ⟨is_utf7_label_iff, by decide, by decide, by decide, by decide, by decide⟩

/-- Witness for C8 at the concrete label "utf-7". -/
theorem is_utf7_label_characterization_witness :
    is_utf7_label [0x75, 0x74, 0x66, 0x2D, 0x37] = true :=
  (is_utf7_label_characterization.1 [0x75, 0x74, 0x66, 0x2D, 0x37]).mpr
    ⟨[], 0x75, 0x74, 0x66, [], by simp, Or.inl rfl, Or.inl rfl, Or.inl rfl,
      by simp, rfl⟩

end CharsetSpec
